import Mathlib

/-!
Shallow embedding of the validation engine of remix-validity-state
(src/src/index.tsx, first snapshot, lines 1-905).

The embedding covers the pure core that the verified claims are about:

* the built-in validation registry (builtInValidations),
* per-input validation (validateInput) in its server-side mode, where a
  FormData snapshot is supplied and no DOM input element is present (the
  DOM branch delegates to the browser and is outside a data-only model),
* whole-form server validation (validateServerFormData) together with
  addValueFromSingleOrMultipleInput,
* a step-relation model of the per-field client validation session of
  useValidatedInput (AbortController generation plus the
  localController.signal.aborted check after the awaited validation).

Host primitives that the source delegates to the JavaScript runtime are
modelled explicitly: regular-expression matching is a parameter (JsHost),
and Number coercion is modelled on its integer fragment (jsNumber), which
is the only fragment the proofs exercise.

JavaScript objects keyed by strings (the ExtendedValidityState record and
the maps built by validateServerFormData) are modelled as insertion-ordered
association lists, so that key collisions between custom-validation names
and built-in keys behave exactly as property writes do in the source.
-/

namespace RVS

/-- A FormData snapshot: an ordered multimap of string entries.  The
source also allows File values, which validateServerFormData skips with a
warning; no claim exercises that branch, so entries are strings here. -/
abbrev FormDataM := List (String × String)

/-- FormData.getAll: all values for a name, in submission order. -/
def FormDataM.getAll (fd : FormDataM) (name : String) : List String :=
  (fd.filter (fun p => p.1 == name)).map (fun p => p.2)

/-- Parse a run of decimal digits; any other character means NaN. -/
def parseDigits : List Char → Nat → Option Nat
  | [], acc => some acc
  | c :: rest, acc =>
      if c.isDigit then parseDigits rest (acc * 10 + (c.toNat - '0'.toNat)) else none

/-- The JavaScript Number coercion on the integer fragment used by the
registry checks: the empty string coerces to 0, optionally signed decimal
integers parse, anything else is NaN (none).  Comparisons against NaN are
false. -/
def jsNumber (s : String) : Option Int :=
  match s.data with
  | [] => some 0
  | '-' :: rest => if rest = [] then none else (parseDigits rest 0).map (fun n => -(n : Int))
  | l => (parseDigits l 0).map (fun n => (n : Int))

/-- The JavaScript String coercion of an integer attribute value. -/
def jsStringOfInt (n : Int) : String := toString n

/-- The JavaScript String coercion of a boolean attribute value. -/
def jsStringOfBool (b : Bool) : String := if b then "true" else "false"

/-- Host services the source delegates to the JavaScript runtime: the
regular-expression engine behind new RegExp(attrValue).test(value). -/
structure JsHost where
  regexTest : String → String → Bool

/-- A validation attribute value: a literal, or a derivation function of
the current FormData that may return null/undefined (none). -/
inductive AttrSpec (α : Type) where
  | lit (a : α)
  | fn (f : FormDataM → Option α)

/-- The BuiltInValidationAttrs interface: each attribute is optional and
is either a literal or a derivation function. -/
structure BuiltInValidationAttrs where
  type : Option (AttrSpec String) := none
  required : Option (AttrSpec Bool) := none
  minLength : Option (AttrSpec Int) := none
  maxLength : Option (AttrSpec Int) := none
  min : Option (AttrSpec Int) := none
  max : Option (AttrSpec Int) := none
  pattern : Option (AttrSpec String) := none

/-- The seven built-in validation attribute names. -/
inductive ValidationAttr where
  | type
  | required
  | minLength
  | maxLength
  | min
  | max
  | pattern
deriving DecidableEq, Repr, Fintype

/-- calculateValidationAttr: resolve an attribute value, invoking a
derivation function on the FormData snapshot. -/
def calculateValidationAttr {α : Type} (attrValue : AttrSpec α) (formData : FormDataM) :
    Option α :=
  match attrValue with
  | .lit a => some a
  | .fn f => f formData

/-- Resolve one attribute slot of a BuiltInValidationAttrs record for a
given FormData snapshot, stringified the way validateInput stringifies the
resolved value before handing it to the registry check.  none means the
attribute is absent or its derivation function returned null/undefined, in
which case validateInput skips the constraint. -/
def resolveAttr (attrs : BuiltInValidationAttrs) (fd : FormDataM) :
    ValidationAttr → Option String
  | .type => attrs.type.bind (fun s => calculateValidationAttr s fd)
  | .required =>
      (attrs.required.bind (fun s => calculateValidationAttr s fd)).map jsStringOfBool
  | .minLength =>
      (attrs.minLength.bind (fun s => calculateValidationAttr s fd)).map jsStringOfInt
  | .maxLength =>
      (attrs.maxLength.bind (fun s => calculateValidationAttr s fd)).map jsStringOfInt
  | .min => (attrs.min.bind (fun s => calculateValidationAttr s fd)).map jsStringOfInt
  | .max => (attrs.max.bind (fun s => calculateValidationAttr s fd)).map jsStringOfInt
  | .pattern => attrs.pattern.bind (fun s => calculateValidationAttr s fd)

/-- One entry of the built-in validation registry: the ValidityState key
it writes and the server-side check.  The error-message templates of the
source are presentation-only and outside every claim, so they are not
carried here. -/
structure BuiltInValidator where
  domKey : String
  validate : String → String → Bool

/-- The builtInValidations registry.  Checks are transcribed from the
source: type always passes; required is value non-empty; the length,
range and pattern checks all pass outright on the empty value. -/
def builtInValidations (h : JsHost) : ValidationAttr → BuiltInValidator
  | .type => { domKey := "typeMismatch", validate := fun _ _ => true }
  | .required =>
      { domKey := "valueMissing", validate := fun value _ => decide (0 < value.length) }
  | .minLength =>
      { domKey := "tooShort",
        validate := fun value attrValue =>
          value.length == 0 ||
            match jsNumber attrValue with
            | some n => decide ((value.length : Int) ≥ n)
            | none => false }
  | .maxLength =>
      { domKey := "tooLong",
        validate := fun value attrValue =>
          value.length == 0 ||
            match jsNumber attrValue with
            | some n => decide ((value.length : Int) ≤ n)
            | none => false }
  | .min =>
      { domKey := "rangeUnderflow",
        validate := fun value attrValue =>
          value.length == 0 ||
            match jsNumber value, jsNumber attrValue with
            | some a, some b => decide (a ≥ b)
            | _, _ => false }
  | .max =>
      { domKey := "rangeOverflow",
        validate := fun value attrValue =>
          value.length == 0 ||
            match jsNumber value, jsNumber attrValue with
            | some a, some b => decide (a ≤ b)
            | _, _ => false }
  | .pattern =>
      { domKey := "patternMismatch",
        validate := fun value attrValue =>
          value.length == 0 || h.regexTest attrValue value }

/-- The ValidityState key an attribute writes, independent of the host. -/
def domKeyOf : ValidationAttr → String
  | .type => "typeMismatch"
  | .required => "valueMissing"
  | .minLength => "tooShort"
  | .maxLength => "tooLong"
  | .min => "rangeUnderflow"
  | .max => "rangeOverflow"
  | .pattern => "patternMismatch"

/-- An ExtendedValidityState: a JavaScript object from key to boolean,
modelled as an insertion-ordered association list so that writes through
arbitrary string keys (custom-validation names included) behave exactly
like property assignment. -/
abbrev ExtendedValidityState := List (String × Bool)

/-- Property assignment obj[k] = b: replace the value of an existing key
in place, or append a new entry. -/
def setKey : ExtendedValidityState → String → Bool → ExtendedValidityState
  | [], k, b => [(k, b)]
  | (k', b') :: rest, k, b =>
      if k' == k then (k', b) :: rest else (k', b') :: setKey rest k b

/-- Property read obj[k]. -/
def getKey : ExtendedValidityState → String → Option Bool
  | [], _ => none
  | (k', b) :: rest, k => if k' == k then some b else getKey rest k

/-- Read of the valid property; it is present from initialization on. -/
def getValid (v : ExtendedValidityState) : Bool := (getKey v "valid").getD true

/-- getBaseValidityState: every flag false and valid true, in the key
order of the source literal. -/
def getBaseValidityState : ExtendedValidityState :=
  [("badInput", false), ("customError", false), ("rangeOverflow", false),
   ("rangeUnderflow", false), ("patternMismatch", false), ("stepMismatch", false),
   ("tooLong", false), ("tooShort", false), ("typeMismatch", false),
   ("valueMissing", false), ("valid", true)]

/-- The two statements the source performs for every check, built-in or
custom: validity[key] = isInvalid followed by
validity.valid = validity.valid AND (NOT isInvalid), with valid read back
after the first write (which matters when key is the string valid). -/
def writeCheck (v : ExtendedValidityState) (key : String) (isInvalid : Bool) :
    ExtendedValidityState :=
  let v1 := setKey v key isInvalid
  setKey v1 "valid" (getValid v1 && !isInvalid)

/-- A custom validation in the fragment where its promise resolves: a
boolean predicate of the value and the FormData snapshot. -/
abbrev CustomValidation := String → FormDataM → Bool

/-- The InputDefinition interface (error messages are presentation-only
and outside every claim).  customValidations is an association list; the
source object has pairwise-distinct keys, which theorems that need it
take as an explicit hypothesis. -/
structure InputDefinition where
  validationAttrs : Option BuiltInValidationAttrs := none
  customValidations : Option (List (String × CustomValidation)) := none

/-- The names of the declared custom validations. -/
def customNames (inputDef : InputDefinition) : List String :=
  (inputDef.customValidations.getD []).map Prod.fst

/-- Iteration order of the attribute record, following the declaration
order of the BuiltInValidationAttrs interface.  Each present attribute is
visited exactly once and the attributes write pairwise-distinct keys, so
the results proved here do not depend on this order. -/
def attrsList : List ValidationAttr :=
  [.type, .required, .minLength, .maxLength, .min, .max, .pattern]

/-- One iteration of the built-in loop of validateInput: resolve the
attribute, skip when it resolves to null/undefined, otherwise run the
registry check and record the result. -/
def applyBuiltIn (h : JsHost) (attrs : BuiltInValidationAttrs) (value : String)
    (fd : FormDataM) (v : ExtendedValidityState) (a : ValidationAttr) :
    ExtendedValidityState :=
  match resolveAttr attrs fd a with
  | none => v
  | some attrValue =>
      let bi := builtInValidations h a
      writeCheck v bi.domKey (!bi.validate value attrValue)

/-- One iteration of the custom-validation loop of validateInput. -/
def applyCustom (value : String) (fd : FormDataM) (v : ExtendedValidityState)
    (c : String × CustomValidation) : ExtendedValidityState :=
  writeCheck v c.1 (!c.2 value fd)

/-- validateInput in server mode: a FormData snapshot is supplied, no DOM
element is present, and every custom-validation promise resolves. -/
def validateInput (h : JsHost) (inputDef : InputDefinition) (value : String)
    (formData : FormDataM) : ExtendedValidityState :=
  let validity := getBaseValidityState
  let validity :=
    match inputDef.validationAttrs with
    | none => validity
    | some attrs => attrsList.foldl (applyBuiltIn h attrs value formData) validity
  match inputDef.customValidations with
  | none => validity
  | some customs => customs.foldl (applyCustom value formData) validity

/-- A custom validation whose execution can fail: the predicate throws or
its promise rejects, carrying a JavaScript error value (a string here). -/
abbrev CustomValidationExc := String → FormDataM → Except String Bool

/-- InputDefinition in the model where custom validations can throw. -/
structure InputDefinitionExc where
  validationAttrs : Option BuiltInValidationAttrs := none
  customValidations : Option (List (String × CustomValidationExc)) := none

/-- The custom-validation loop of validateInput under the exception
semantics of await: the first throwing check rejects the whole call and
no later check runs. -/
def runCustomsExc (value : String) (fd : FormDataM) :
    List (String × CustomValidationExc) → ExtendedValidityState →
    Except String ExtendedValidityState
  | [], v => .ok v
  | c :: rest, v =>
      match c.2 value fd with
      | .error e => .error e
      | .ok b => runCustomsExc value fd rest (writeCheck v c.1 (!b))

/-- validateInput in server mode with throwing custom validations.  The
source has no try/catch around the custom-validation loop, so an error
propagates out of the returned promise. -/
def validateInputExc (h : JsHost) (inputDef : InputDefinitionExc) (value : String)
    (formData : FormDataM) : Except String ExtendedValidityState :=
  let validity := getBaseValidityState
  let validity :=
    match inputDef.validationAttrs with
    | none => validity
    | some attrs => attrsList.foldl (applyBuiltIn h attrs value formData) validity
  match inputDef.customValidations with
  | none => .ok validity
  | some customs => runCustomsExc value formData customs validity

/-- The state field of InputInfo. -/
inductive InputState where
  | idle
  | validating
  | done
deriving DecidableEq, Repr

/-- InputInfo as built per submitted value by validateServerFormData. -/
structure InputInfo where
  touched : Bool
  dirty : Bool
  state : InputState
  validity : Option ExtendedValidityState
deriving DecidableEq

/-- A map entry that is a bare scalar or an array, as produced by
addValueFromSingleOrMultipleInput. -/
inductive SingleOrMulti (α : Type) where
  | single (a : α)
  | multi (l : List α)
deriving DecidableEq

/-- addValueFromSingleOrMultipleInput: a first value for a name is stored
as a bare scalar; encountering the name again converts the entry to a
two-element array; later values are pushed onto the array. -/
def addValueFromSingleOrMultipleInput {α : Type} (name : String) (value : α) :
    List (String × SingleOrMulti α) → List (String × SingleOrMulti α)
  | [] => [(name, .single value)]
  | (k, v) :: rest =>
      if k == name then
        match v with
        | .single e => (k, .multi [e, value]) :: rest
        | .multi l => (k, .multi (l ++ [value])) :: rest
      else (k, v) :: addValueFromSingleOrMultipleInput name value rest

/-- Property read on the maps built by validateServerFormData. -/
def lookupName {α : Type} : List (String × SingleOrMulti α) → String →
    Option (SingleOrMulti α)
  | [], _ => none
  | (k, v) :: rest, n => if k == n then some v else lookupName rest n

/-- The ServerFormInfo record. -/
structure ServerFormInfo where
  submittedValues : List (String × SingleOrMulti String)
  inputs : List (String × SingleOrMulti InputInfo)
  valid : Bool
deriving DecidableEq

/-- The InputInfo literal validateServerFormData builds for one submitted
value: touched and dirty, state done, validity from validateInput. -/
def serverInputInfo (h : JsHost) (inputDef : InputDefinition) (value : String)
    (fd : FormDataM) : InputInfo :=
  { touched := true, dirty := true, state := .done,
    validity := some (validateInput h inputDef value fd) }

/-- The body of the per-value loop of validateServerFormData. -/
def processValue (h : JsHost) (fd : FormDataM) (name : String)
    (inputDef : InputDefinition) (acc : ServerFormInfo) (value : String) :
    ServerFormInfo :=
  let info := serverInputInfo h inputDef value fd
  { submittedValues := addValueFromSingleOrMultipleInput name value acc.submittedValues,
    inputs := addValueFromSingleOrMultipleInput name info acc.inputs,
    valid := acc.valid && getValid (validateInput h inputDef value fd) }

/-- Processing of one declared input by validateServerFormData: loop over
formData.getAll for its name.  When the name is entirely absent from the
FormData, getAll is empty and the input is skipped without a trace. -/
def processEntry (h : JsHost) (fd : FormDataM) (acc : ServerFormInfo)
    (entry : String × InputDefinition) : ServerFormInfo :=
  (FormDataM.getAll fd entry.1).foldl (processValue h fd entry.1 entry.2) acc

/-- validateServerFormData.  The source fans the declared inputs out with
Promise.all, but each iteration only touches the entries of its own input
name, so this sequential fold is observationally the same map-building
computation. -/
def validateServerFormData (h : JsHost) (fd : FormDataM)
    (formDefinition : List (String × InputDefinition)) : ServerFormInfo :=
  formDefinition.foldl (processEntry h fd)
    { submittedValues := [], inputs := [], valid := true }

/-- The scalar-or-array shape validateServerFormData gives a sequence of
submitted values: none for zero values, a bare scalar for exactly one,
an array in submission order for two or more. -/
def listToSingleOrMulti {α : Type} : List α → Option (SingleOrMulti α)
  | [] => none
  | [a] => some (.single a)
  | a :: b :: rest => some (.multi (a :: b :: rest))

/-! ## Live validation session

A step-relation model of the async-validation core of useValidatedInput.
Each run of the validation effect aborts the AbortController stored in
controller.current, installs a fresh localController, sets the state to
validating, and starts an asynchronous validateInput call.  When that
call resolves it first checks localController.signal.aborted and returns
without touching any state when the controller was aborted; otherwise it
sets the state to done and stores the fresh validity.

Controllers are modelled by generation numbers: cur is the generation
held in controller.current, nextGen the next fresh generation, aborted
the set of generations whose controllers have been aborted.  The two
events are the synchronous prefix of the effect (startValidation) and
the resumption of one asynchronous validation (resolve), carrying the
generation of the localController it captured and its result. -/

structure SessionState where
  cur : Option Nat
  nextGen : Nat
  aborted : List Nat
  validationState : InputState
  validity : Option ExtendedValidityState
deriving DecidableEq

/-- The session before any validation has started. -/
def initialSession : SessionState :=
  { cur := none, nextGen := 0, aborted := [], validationState := .idle,
    validity := none }

inductive SessionEvent where
  | startValidation
  | resolve (g : Nat) (result : ExtendedValidityState)

/-- One step of the session. -/
def sessionStep (s : SessionState) : SessionEvent → SessionState
  | .startValidation =>
      { cur := some s.nextGen,
        nextGen := s.nextGen + 1,
        aborted := match s.cur with
          | some g => g :: s.aborted
          | none => s.aborted,
        validationState := .validating,
        validity := s.validity }
  | .resolve g r =>
      if g ∈ s.aborted then s
      else { s with validationState := .done, validity := some r }

/-- Run a sequence of session events. -/
def runSession (s : SessionState) (evs : List SessionEvent) : SessionState :=
  evs.foldl sessionStep s

/-- Discriminate resolution events of a given generation. -/
def isResolveOf (g : Nat) : SessionEvent → Bool
  | .resolve g' _ => g' == g
  | _ => false

/-! ## Derived views and fixtures used by the theorems -/

/-- The claim wording, on this representation: every entry other than the
valid entry holds false. -/
def allOthersFalse (v : ExtendedValidityState) : Bool :=
  v.all (fun p => p.1 == "valid" || !p.2)

/-- The aggregate invariant of a validity record: the valid entry equals
the conjunction of the negations of every other entry. -/
def validityConsistent (v : ExtendedValidityState) : Prop :=
  getValid v = allOthersFalse v

/-- The seven built-in constraint-violation keys, in attribute order. -/
def builtInFlagKeys : List String :=
  ["typeMismatch", "valueMissing", "tooShort", "tooLong", "rangeUnderflow",
   "rangeOverflow", "patternMismatch"]

/-- Apply a sequence of check results to a validity record, one writeCheck
per entry.  Both loops of validateInput are instances: the key and the
invalidity bit of every iteration depend only on the definition, the
value and the FormData snapshot, never on the validity record built so
far. -/
def applyWrites (ws : List (String × Bool)) (v : ExtendedValidityState) :
    ExtendedValidityState :=
  ws.foldl (fun v p => writeCheck v p.1 p.2) v

/-- The key/invalidity sequence the built-in loop of validateInput
produces: one entry per attribute that resolves to a present value. -/
def builtInWrites (h : JsHost) (attrs : BuiltInValidationAttrs) (value : String)
    (fd : FormDataM) : List (String × Bool) :=
  attrsList.filterMap (fun a =>
    (resolveAttr attrs fd a).map (fun s =>
      ((builtInValidations h a).domKey, !(builtInValidations h a).validate value s)))

/-- The key/invalidity sequence of the whole validateInput call.  An
absent validationAttrs record behaves like an all-absent one, and an
absent customValidations map like an empty one. -/
def inputWrites (h : JsHost) (inputDef : InputDefinition) (value : String)
    (fd : FormDataM) : List (String × Bool) :=
  builtInWrites h (inputDef.validationAttrs.getD {}) value fd
    ++ (inputDef.customValidations.getD []).map (fun c => (c.1, !c.2 value fd))

/-- Remove one attribute from a BuiltInValidationAttrs record. -/
def eraseAttr : ValidationAttr → BuiltInValidationAttrs → BuiltInValidationAttrs
  | .type, attrs => { attrs with type := none }
  | .required, attrs => { attrs with required := none }
  | .minLength, attrs => { attrs with minLength := none }
  | .maxLength, attrs => { attrs with maxLength := none }
  | .min, attrs => { attrs with min := none }
  | .max, attrs => { attrs with max := none }
  | .pattern, attrs => { attrs with pattern := none }

/-- The scalar-or-array entry a fold of addValueFromSingleOrMultipleInput
builds on top of an existing entry. -/
def collect {α : Type} : Option (SingleOrMulti α) → List α → Option (SingleOrMulti α)
  | cur, [] => cur
  | none, v :: rest => collect (some (.single v)) rest
  | some (.single e), v :: rest => collect (some (.multi [e, v])) rest
  | some (.multi l), v :: rest => collect (some (.multi (l ++ [v]))) rest

/-- A concrete host whose regular-expression engine accepts everything;
used to evaluate the model on concrete inputs. -/
def acceptAllHost : JsHost := { regexTest := fun _ _ => true }

/-- A definition whose only check is a custom validation named valid that
always passes. -/
def validNamedDef : InputDefinition :=
  { customValidations := some [("valid", fun _ _ => true)] }

/-- A definition with minLength 5 and a custom validation that shares the
name of the tooShort flag and always passes. -/
def tooShortCollisionDef : InputDefinition :=
  { validationAttrs := some { minLength := some (.lit 5) },
    customValidations := some [("tooShort", fun _ _ => true)] }

/-- The scenario definition of the spec: required, minLength 5, and one
well-named custom validation. -/
def mustBeBrophyDef : InputDefinition :=
  { validationAttrs := some { required := some (.lit true), minLength := some (.lit 5) },
    customValidations := some [("mustBeBrophy", fun v _ => v == "brophy")] }

/-- The definition of P2: required together with minLength 5. -/
def requiredMinLengthDef : InputDefinition :=
  { validationAttrs := some { required := some (.lit true), minLength := some (.lit 5) } }

/-- A one-field form whose email input is required. -/
def emailFormDefinition : List (String × InputDefinition) :=
  [("email", { validationAttrs := some { required := some (AttrSpec.lit true) } })]

/-- A definition with a throwing custom validation followed by a failing
but non-throwing one. -/
def throwingDef : InputDefinitionExc :=
  { customValidations := some
      [("boom", fun _ _ => Except.error "boom failed"),
       ("other", fun _ _ => Except.ok false)] }

/-- Attributes whose min constraint derives from the low field of the
submission and parses it as a number. -/
def dynamicMinAttrs : BuiltInValidationAttrs :=
  { min := some (.fn (fun fd => ((FormDataM.getAll fd "low").head?).bind jsNumber)) }

/-- The session after its first validation has started. -/
def sessionAfterFirstStart : SessionState := sessionStep initialSession .startValidation

/-! ## Basic lemmas about the embedded operations -/

theorem builtIn_domKey (h : JsHost) (a : ValidationAttr) :
    (builtInValidations h a).domKey = domKeyOf a := by
  cases a <;> rfl

theorem domKeyOf_inj : ∀ {a b : ValidationAttr}, domKeyOf a = domKeyOf b → a = b := by
  decide

theorem domKeyOf_ne_valid (a : ValidationAttr) : domKeyOf a ≠ "valid" := by
  cases a <;> decide

theorem domKeyOf_mem_flagKeys (a : ValidationAttr) : domKeyOf a ∈ builtInFlagKeys := by
  cases a <;> decide

theorem attrsList_map_domKeyOf : attrsList.map domKeyOf = builtInFlagKeys := by
  decide

theorem flagKeys_ne_valid : ∀ k ∈ builtInFlagKeys, k ≠ "valid" := by decide

theorem getKey_setKey_same : ∀ (v : ExtendedValidityState) (k : String) (b : Bool),
    getKey (setKey v k b) k = some b
  | [], k, b => by simp [setKey, getKey]
  | (k', b') :: rest, k, b => by
      by_cases h : k' = k
      · simp [setKey, getKey, h]
      · simp [setKey, getKey, h, getKey_setKey_same rest k b]

theorem getKey_setKey_other : ∀ (v : ExtendedValidityState) (k k' : String) (b : Bool),
    k' ≠ k → getKey (setKey v k b) k' = getKey v k'
  | [], k, k', b, hne => by
      have h1 : (k == k') = false := by simp [Ne.symm hne]
      simp [setKey, getKey, h1]
  | (k₀, b₀) :: rest, k, k', b, hne => by
      by_cases h : k₀ = k
      · subst h
        have h2 : (k₀ == k') = false := by
          have hne2 : ¬k₀ = k' := fun hh => hne hh.symm
          simp [hne2]
        simp [setKey, getKey, h2]
      · have h1 : (k₀ == k) = false := by simp [h]
        by_cases h' : k₀ = k'
        · subst h'
          simp [setKey, getKey, h1]
        · have h2 : (k₀ == k') = false := by simp [h']
          simp [setKey, getKey, h1, h2, getKey_setKey_other rest k k' b hne]

theorem getValid_setKey_other (v : ExtendedValidityState) (k : String) (b : Bool)
    (hk : k ≠ "valid") : getValid (setKey v k b) = getValid v := by
  unfold getValid
  rw [getKey_setKey_other v k "valid" b (fun h => hk h.symm)]

theorem getKey_writeCheck_self (v : ExtendedValidityState) (k : String) (b : Bool)
    (hk : k ≠ "valid") : getKey (writeCheck v k b) k = some b := by
  unfold writeCheck
  rw [getKey_setKey_other _ "valid" k _ hk, getKey_setKey_same]

theorem getKey_writeCheck_other (v : ExtendedValidityState) (k : String) (b : Bool)
    (k' : String) (hk : k' ≠ k) (hv : k' ≠ "valid") :
    getKey (writeCheck v k b) k' = getKey v k' := by
  unfold writeCheck
  rw [getKey_setKey_other _ "valid" k' _ hv, getKey_setKey_other _ k k' _ hk]

theorem getValid_writeCheck (v : ExtendedValidityState) (k : String) (b : Bool)
    (hk : k ≠ "valid") : getValid (writeCheck v k b) = (getValid v && !b) := by
  unfold writeCheck getValid
  rw [getKey_setKey_same]
  rw [getKey_setKey_other v k "valid" b (Ne.symm hk)]
  rfl

theorem setKey_cons_eq (k₀ : String) (b₀ : Bool) (rest : ExtendedValidityState)
    (k : String) (b : Bool) (h : (k₀ == k) = true) :
    setKey ((k₀, b₀) :: rest) k b = (k₀, b) :: rest := by
  simp [setKey, h]

theorem setKey_cons_ne (k₀ : String) (b₀ : Bool) (rest : ExtendedValidityState)
    (k : String) (b : Bool) (h : (k₀ == k) = false) :
    setKey ((k₀, b₀) :: rest) k b = (k₀, b₀) :: setKey rest k b := by
  simp [setKey, h]

theorem allOthersFalse_cons (k : String) (b : Bool) (rest : ExtendedValidityState) :
    allOthersFalse ((k, b) :: rest) = ((k == "valid" || !b) && allOthersFalse rest) := by
  simp [allOthersFalse]

theorem allOthersFalse_setKey_valid : ∀ (v : ExtendedValidityState) (x : Bool),
    allOthersFalse (setKey v "valid" x) = allOthersFalse v
  | [], x => by simp [allOthersFalse, setKey]
  | (k₀, b₀) :: rest, x => by
      by_cases h : k₀ = "valid"
      · rw [setKey_cons_eq _ _ _ _ _ (by simp [h]), allOthersFalse_cons, allOthersFalse_cons]
        subst h
        simp
      · rw [setKey_cons_ne _ _ _ _ _ (by simp [h]), allOthersFalse_cons, allOthersFalse_cons,
          allOthersFalse_setKey_valid rest x]

theorem allOthersFalse_setKey : ∀ (v : ExtendedValidityState) (k : String) (b : Bool),
    k ≠ "valid" → getKey v k ≠ some true →
    allOthersFalse (setKey v k b) = (allOthersFalse v && !b)
  | [], k, b, hk, _ => by
      have h1 : (k == "valid") = false := by simp [hk]
      simp [allOthersFalse, setKey, h1]
  | (k₀, b₀) :: rest, k, b, hk, hprev => by
      by_cases h : k₀ = k
      · subst h
        have hb₀ : b₀ = false := by
          have hg : getKey ((k₀, b₀) :: rest) k₀ = some b₀ := by simp [getKey]
          rcases Bool.eq_false_or_eq_true b₀ with hb | hb
          · have hg2 : getKey ((k₀, b₀) :: rest) k₀ = some true := by rw [hg, hb]
            exact absurd hg2 hprev
          · exact hb
        subst hb₀
        have h1 : (k₀ == "valid") = false := by simp [hk]
        rw [setKey_cons_eq _ _ _ _ _ (by simp), allOthersFalse_cons, allOthersFalse_cons, h1]
        simp [Bool.and_comm]
      · have h1 : (k₀ == k) = false := by simp [h]
        have hrest : getKey rest k ≠ some true := by
          intro hc
          apply hprev
          simp [getKey, h1, hc]
        rw [setKey_cons_ne _ _ _ _ _ h1, allOthersFalse_cons, allOthersFalse_cons,
          allOthersFalse_setKey rest k b hk hrest, Bool.and_assoc]

theorem allOthersFalse_writeCheck (v : ExtendedValidityState) (k : String) (b : Bool)
    (hk : k ≠ "valid") (hprev : getKey v k ≠ some true) :
    allOthersFalse (writeCheck v k b) = (allOthersFalse v && !b) := by
  unfold writeCheck
  rw [allOthersFalse_setKey_valid, allOthersFalse_setKey v k b hk hprev]

theorem writeCheck_consistent (v : ExtendedValidityState) (k : String) (b : Bool)
    (hk : k ≠ "valid") (hprev : getKey v k ≠ some true) (hv : validityConsistent v) :
    validityConsistent (writeCheck v k b) := by
  unfold validityConsistent at hv ⊢
  rw [getValid_writeCheck v k b hk, allOthersFalse_writeCheck v k b hk hprev, hv]

theorem getKey_applyWrites_other : ∀ (ws : List (String × Bool))
    (v : ExtendedValidityState) (k : String), k ≠ "valid" → (∀ p ∈ ws, p.1 ≠ k) →
    getKey (applyWrites ws v) k = getKey v k
  | [], _, _, _, _ => rfl
  | (wk, wb) :: ws, v, k, hk, hws => by
      have h1 : wk ≠ k := hws (wk, wb) (by simp)
      have ih := getKey_applyWrites_other ws (writeCheck v wk wb) k hk
        (fun p hp => hws p (by simp [hp]))
      calc getKey (applyWrites ((wk, wb) :: ws) v) k
          = getKey (applyWrites ws (writeCheck v wk wb)) k := rfl
        _ = getKey (writeCheck v wk wb) k := ih
        _ = getKey v k := getKey_writeCheck_other v wk wb k (Ne.symm h1) hk

theorem getKey_applyWrites_false : ∀ (ws : List (String × Bool))
    (v : ExtendedValidityState) (k : String), k ≠ "valid" → getKey v k = some false →
    (∀ p ∈ ws, p.1 = k → p.2 = false) →
    getKey (applyWrites ws v) k = some false
  | [], _, _, _, hbase, _ => hbase
  | (wk, wb) :: ws, v, k, hk, hbase, hws => by
      have hstep : getKey (writeCheck v wk wb) k = some false := by
        by_cases h : wk = k
        · subst h
          have hb : wb = false := hws (wk, wb) (by simp) rfl
          rw [getKey_writeCheck_self v wk wb hk, hb]
        · rw [getKey_writeCheck_other v wk wb k (Ne.symm h) hk]
          exact hbase
      exact getKey_applyWrites_false ws (writeCheck v wk wb) k hk hstep
        (fun p hp => hws p (by simp [hp]))

theorem applyWrites_consistent : ∀ (ws : List (String × Bool))
    (v : ExtendedValidityState), validityConsistent v →
    (∀ p ∈ ws, p.1 ≠ "valid") →
    (∀ p ∈ ws, getKey v p.1 ≠ some true) →
    (ws.map Prod.fst).Nodup →
    validityConsistent (applyWrites ws v)
  | [], _, hv, _, _, _ => hv
  | (wk, wb) :: ws, v, hv, hvalid, hprev, hnodup => by
      have hk : wk ≠ "valid" := hvalid (wk, wb) (by simp)
      have hp : getKey v wk ≠ some true := hprev (wk, wb) (by simp)
      have hv' := writeCheck_consistent v wk wb hk hp hv
      rw [List.map_cons, List.nodup_cons] at hnodup
      apply applyWrites_consistent ws (writeCheck v wk wb) hv'
        (fun p hp2 => hvalid p (by simp [hp2])) ?_ hnodup.2
      intro p hp2
      have hne : p.1 ≠ wk := by
        intro hc
        have hmem : p.1 ∈ ws.map Prod.fst := List.mem_map_of_mem Prod.fst hp2
        rw [hc] at hmem
        exact hnodup.1 hmem
      rw [getKey_writeCheck_other v wk wb p.1 hne (hvalid p (by simp [hp2]))]
      exact hprev p (by simp [hp2])

theorem getKey_ne_true_of_others_false : ∀ (v : ExtendedValidityState) (k : String),
    k ≠ "valid" → (∀ p ∈ v, p.1 ≠ "valid" → p.2 = false) →
    getKey v k ≠ some true
  | [], _, _, _ => by simp [getKey]
  | (k₀, b₀) :: rest, k, hk, hall => by
      by_cases h : k₀ = k
      · subst h
        have hb : b₀ = false := hall (k₀, b₀) (by simp) hk
        simp [getKey, hb]
      · have h1 : (k₀ == k) = false := by simp [h]
        simp only [getKey, h1, if_false]
        exact getKey_ne_true_of_others_false rest k hk (fun p hp => hall p (by simp [hp]))

theorem getKey_base_ne_true (k : String) (hk : k ≠ "valid") :
    getKey getBaseValidityState k ≠ some true := by
  apply getKey_ne_true_of_others_false _ _ hk
  decide

theorem base_consistent : validityConsistent getBaseValidityState := by
  unfold validityConsistent
  decide

theorem getKey_base_flag (k : String) (hk : k ∈ builtInFlagKeys) :
    getKey getBaseValidityState k = some false := by
  fin_cases hk <;> decide

theorem allOthersFalse_iff (v : ExtendedValidityState) :
    allOthersFalse v = true ↔ ∀ p ∈ v, p.1 ≠ "valid" → p.2 = false := by
  unfold allOthersFalse
  rw [List.all_eq_true]
  constructor
  · intro H p hp hne
    have h1 := H p hp
    have h2 : (p.1 == "valid") = false := by simp [hne]
    rw [h2, Bool.false_or] at h1
    cases hb : p.2
    · rfl
    · rw [hb] at h1
      simp at h1
  · intro H p hp
    by_cases hne : p.1 = "valid"
    · simp [hne]
    · have := H p hp hne
      simp [this]

theorem applyWrites_cons (w : String × Bool) (ws : List (String × Bool))
    (v : ExtendedValidityState) :
    applyWrites (w :: ws) v = applyWrites ws (writeCheck v w.1 w.2) := rfl

theorem applyWrites_append (ws₁ ws₂ : List (String × Bool)) (v : ExtendedValidityState) :
    applyWrites (ws₁ ++ ws₂) v = applyWrites ws₂ (applyWrites ws₁ v) := by
  unfold applyWrites
  rw [List.foldl_append]

theorem foldl_applyBuiltIn_eq (h : JsHost) (attrs : BuiltInValidationAttrs)
    (value : String) (fd : FormDataM) : ∀ (l : List ValidationAttr)
    (v : ExtendedValidityState),
    l.foldl (applyBuiltIn h attrs value fd) v
      = applyWrites (l.filterMap (fun a =>
          (resolveAttr attrs fd a).map (fun s =>
            ((builtInValidations h a).domKey,
             !(builtInValidations h a).validate value s)))) v
  | [], _ => rfl
  | a :: l, v => by
      rw [List.foldl_cons, List.filterMap_cons]
      cases hres : resolveAttr attrs fd a with
      | none =>
          have hid : applyBuiltIn h attrs value fd v a = v := by
            unfold applyBuiltIn
            rw [hres]
          simp only [Option.map_none', hid]
          exact foldl_applyBuiltIn_eq h attrs value fd l v
      | some s =>
          have happ : applyBuiltIn h attrs value fd v a
              = writeCheck v (builtInValidations h a).domKey
                  (!(builtInValidations h a).validate value s) := by
            unfold applyBuiltIn
            rw [hres]
          simp only [Option.map_some', happ, applyWrites_cons]
          exact foldl_applyBuiltIn_eq h attrs value fd l _

theorem foldl_applyCustom_eq (value : String) (fd : FormDataM) :
    ∀ (customs : List (String × CustomValidation)) (v : ExtendedValidityState),
    customs.foldl (applyCustom value fd) v
      = applyWrites (customs.map (fun c => (c.1, !c.2 value fd))) v
  | [], _ => rfl
  | c :: customs, v => by
      rw [List.foldl_cons, List.map_cons, applyWrites_cons]
      exact foldl_applyCustom_eq value fd customs _

theorem builtInWrites_default (h : JsHost) (value : String) (fd : FormDataM) :
    builtInWrites h {} value fd = [] := rfl

theorem validateInput_eq_applyWrites (h : JsHost) (inputDef : InputDefinition)
    (value : String) (fd : FormDataM) :
    validateInput h inputDef value fd
      = applyWrites (inputWrites h inputDef value fd) getBaseValidityState := by
  unfold validateInput inputWrites
  cases hva : inputDef.validationAttrs <;> cases hcv : inputDef.customValidations <;>
    (simp only [Option.getD_some, Option.getD_none, builtInWrites_default,
      foldl_applyBuiltIn_eq, foldl_applyCustom_eq, applyWrites_append,
      List.append_nil, List.nil_append, List.map_nil]
     try rfl)

theorem mem_builtInWrites (h : JsHost) (attrs : BuiltInValidationAttrs) (value : String)
    (fd : FormDataM) (p : String × Bool) (hp : p ∈ builtInWrites h attrs value fd) :
    ∃ a ∈ attrsList, ∃ s, resolveAttr attrs fd a = some s ∧
      p = (domKeyOf a, !(builtInValidations h a).validate value s) := by
  unfold builtInWrites at hp
  rw [List.mem_filterMap] at hp
  obtain ⟨a, ha, hf⟩ := hp
  cases hres : resolveAttr attrs fd a with
  | none =>
      rw [hres] at hf
      simp at hf
  | some s =>
      rw [hres] at hf
      simp only [Option.map_some', Option.some.injEq] at hf
      refine ⟨a, ha, s, hres, ?_⟩
      rw [← hf, builtIn_domKey]

theorem builtInWrites_key_mem (h : JsHost) (attrs : BuiltInValidationAttrs)
    (value : String) (fd : FormDataM) (p : String × Bool)
    (hp : p ∈ builtInWrites h attrs value fd) : p.1 ∈ builtInFlagKeys := by
  obtain ⟨a, _, s, _, hpe⟩ := mem_builtInWrites h attrs value fd p hp
  rw [hpe]
  exact domKeyOf_mem_flagKeys a

theorem filterMap_writes_keys_sublist (h : JsHost) (attrs : BuiltInValidationAttrs)
    (value : String) (fd : FormDataM) : ∀ (l : List ValidationAttr),
    List.Sublist
      ((l.filterMap (fun a => (resolveAttr attrs fd a).map (fun s =>
          ((builtInValidations h a).domKey,
           !(builtInValidations h a).validate value s)))).map Prod.fst)
      (l.map domKeyOf)
  | [] => List.Sublist.refl _
  | a :: l => by
      rw [List.filterMap_cons, List.map_cons]
      cases hres : resolveAttr attrs fd a with
      | none =>
          simp only [Option.map_none']
          exact (filterMap_writes_keys_sublist h attrs value fd l).cons _
      | some s =>
          simp only [Option.map_some', List.map_cons]
          rw [builtIn_domKey h a]
          exact (filterMap_writes_keys_sublist h attrs value fd l).cons₂ _

theorem builtInWrites_keys_nodup (h : JsHost) (attrs : BuiltInValidationAttrs)
    (value : String) (fd : FormDataM) :
    ((builtInWrites h attrs value fd).map Prod.fst).Nodup := by
  have hsub := filterMap_writes_keys_sublist h attrs value fd attrsList
  have hnd : (attrsList.map domKeyOf).Nodup := by decide
  exact List.Nodup.sublist hsub hnd

theorem customWrites_keys (value : String) (fd : FormDataM)
    (customs : List (String × CustomValidation)) :
    ((customs.map (fun c => (c.1, !c.2 value fd))).map Prod.fst)
      = customs.map Prod.fst := by
  rw [List.map_map]
  rfl

theorem inputWrites_key_cases (h : JsHost) (inputDef : InputDefinition) (value : String)
    (fd : FormDataM) (p : String × Bool) (hp : p ∈ inputWrites h inputDef value fd) :
    p.1 ∈ builtInFlagKeys ∨ p.1 ∈ customNames inputDef := by
  unfold inputWrites at hp
  rw [List.mem_append] at hp
  rcases hp with hp | hp
  · exact Or.inl (builtInWrites_key_mem h _ value fd p hp)
  · right
    rw [List.mem_map] at hp
    obtain ⟨c, hc, hce⟩ := hp
    unfold customNames
    rw [← hce]
    exact List.mem_map_of_mem Prod.fst hc

theorem inputWrites_keys_nodup (h : JsHost) (inputDef : InputDefinition) (value : String)
    (fd : FormDataM) (hnodup : (customNames inputDef).Nodup)
    (hdisj : ∀ n ∈ customNames inputDef, n ∉ builtInFlagKeys) :
    ((inputWrites h inputDef value fd).map Prod.fst).Nodup := by
  unfold inputWrites
  rw [List.map_append]
  apply List.Nodup.append
  · exact builtInWrites_keys_nodup h _ value fd
  · rw [customWrites_keys]
    exact hnodup
  · intro k hk1 hk2
    rw [List.mem_map] at hk1
    obtain ⟨p, hp, hpk⟩ := hk1
    have hkf : k ∈ builtInFlagKeys := by
      rw [← hpk]
      exact builtInWrites_key_mem h _ value fd p hp
    rw [customWrites_keys] at hk2
    exact hdisj k hk2 hkf

theorem nonRequired_validate_empty (h : JsHost) (a : ValidationAttr)
    (ha : a ≠ .required) (s : String) :
    (builtInValidations h a).validate "" s = true := by
  cases a <;> first | exact absurd rfl ha | rfl

theorem resolveAttr_eraseAttr_self (attrs : BuiltInValidationAttrs) (fd : FormDataM)
    (a : ValidationAttr) : resolveAttr (eraseAttr a attrs) fd a = none := by
  cases a <;> rfl

theorem resolveAttr_eraseAttr_other (attrs : BuiltInValidationAttrs) (fd : FormDataM)
    (a a' : ValidationAttr) (hne : a' ≠ a) :
    resolveAttr (eraseAttr a attrs) fd a' = resolveAttr attrs fd a' := by
  cases a <;> cases a' <;> first | exact absurd rfl hne | rfl

theorem builtInWrites_erase (h : JsHost) (attrs : BuiltInValidationAttrs)
    (value : String) (fd : FormDataM) (a : ValidationAttr)
    (hnone : resolveAttr attrs fd a = none) :
    builtInWrites h (eraseAttr a attrs) value fd = builtInWrites h attrs value fd := by
  unfold builtInWrites
  apply List.filterMap_congr
  intro a' _
  by_cases h' : a' = a
  · subst h'
    rw [resolveAttr_eraseAttr_self, hnone]
  · rw [resolveAttr_eraseAttr_other attrs fd a a' h']

/-! ## Claims -/

/-- C2 (amended): for every host, value and form-data snapshot, and every
input definition whose custom-validation names are pairwise distinct and
collide neither with the key valid nor with a built-in flag key, the
validity record produced by validateInput has its valid entry true
exactly when every other entry is false.  The restriction is forced by
the counterexample: custom validations write into the same key space as
the built-in flags, so a custom validation named valid (or named like a
flag key whose check already failed) breaks the aggregate invariant. -/
theorem validateInput_valid_iff_flags (h : JsHost) (inputDef : InputDefinition)
    (value : String) (fd : FormDataM)
    (hnodup : (customNames inputDef).Nodup)
    (hnames : ∀ n ∈ customNames inputDef, n ≠ "valid" ∧ n ∉ builtInFlagKeys) :
    (getValid (validateInput h inputDef value fd) = true ↔
      ∀ p ∈ validateInput h inputDef value fd, p.1 ≠ "valid" → p.2 = false) := by
  have hvalid : ∀ p ∈ inputWrites h inputDef value fd, p.1 ≠ "valid" := by
    intro p hp
    rcases inputWrites_key_cases h inputDef value fd p hp with hk | hk
    · exact flagKeys_ne_valid p.1 hk
    · exact (hnames p.1 hk).1
  have hcons : validityConsistent (validateInput h inputDef value fd) := by
    rw [validateInput_eq_applyWrites]
    apply applyWrites_consistent _ _ base_consistent hvalid
    · intro p hp
      exact getKey_base_ne_true p.1 (hvalid p hp)
    · exact inputWrites_keys_nodup h inputDef value fd hnodup
        (fun n hn => (hnames n hn).2)
  unfold validityConsistent at hcons
  rw [hcons]
  exact allOthersFalse_iff _

/-- C2 counterexample: an input definition whose only check is a custom
validation named valid that passes yields a record with every non-valid
entry false and the valid entry false, so the aggregate equivalence fails
as universally stated. -/
theorem valid_name_collision_counterexample :
    ¬ (getValid (validateInput acceptAllHost validNamedDef "" []) = true ↔
        ∀ p ∈ validateInput acceptAllHost validNamedDef "" [],
          p.1 ≠ "valid" → p.2 = false) := by
  decide

/-- C2 witness: the amended theorem applied to the scenario definition
with value Bro. -/
theorem validateInput_valid_iff_flags_witness :
    (customNames mustBeBrophyDef).Nodup ∧
    (∀ n ∈ customNames mustBeBrophyDef, n ≠ "valid" ∧ n ∉ builtInFlagKeys) ∧
    (getValid (validateInput acceptAllHost mustBeBrophyDef "Bro" []) = true ↔
      ∀ p ∈ validateInput acceptAllHost mustBeBrophyDef "Bro" [],
        p.1 ≠ "valid" → p.2 = false) :=
  ⟨by decide, by decide,
   validateInput_valid_iff_flags acceptAllHost mustBeBrophyDef "Bro" []
     (by decide) (by decide)⟩

/-- C9 (amended): custom validations leave a built-in constraint flag of
the validity record unchanged provided no declared custom-validation name
equals that flag key: the record equals, at that key, the record computed
with the custom validations removed.  The restriction is forced by the
counterexample: names live in one key space, and a custom validation
named exactly like a built-in flag key overwrites that very entry. -/
theorem customs_preserve_builtin_flag (h : JsHost) (inputDef : InputDefinition)
    (value : String) (fd : FormDataM) (k : String) (hk : k ∈ builtInFlagKeys)
    (hnames : ∀ n ∈ customNames inputDef, n ≠ k) :
    getKey (validateInput h inputDef value fd) k
      = getKey (validateInput h { inputDef with customValidations := none } value fd) k := by
  have hkvalid : k ≠ "valid" := flagKeys_ne_valid k hk
  rw [validateInput_eq_applyWrites, validateInput_eq_applyWrites]
  unfold inputWrites
  rw [applyWrites_append, applyWrites_append]
  rw [getKey_applyWrites_other _ _ k hkvalid ?_]
  · rfl
  · intro p hp
    rw [List.mem_map] at hp
    obtain ⟨c, hc, hce⟩ := hp
    rw [← hce]
    exact hnames c.1 (List.mem_map_of_mem Prod.fst hc)

/-- C9 counterexample: with minLength 5 and value abc the built-in check
sets tooShort true, and a passing custom validation that is also named
tooShort then overwrites the flag to false, so running the custom
validations did alter a built-in constraint flag. -/
theorem custom_name_collision_counterexample :
    getKey (validateInput acceptAllHost tooShortCollisionDef "abc" []) "tooShort"
        = some false ∧
    getKey (validateInput acceptAllHost
        { tooShortCollisionDef with customValidations := none } "abc" []) "tooShort"
        = some true := by
  decide

/-- C9 witness: the amended theorem applied to the scenario definition,
whose custom name mustBeBrophy differs from the flag key tooShort. -/
theorem customs_preserve_builtin_flag_witness :
    ("tooShort" ∈ builtInFlagKeys) ∧
    (∀ n ∈ customNames mustBeBrophyDef, n ≠ "tooShort") ∧
    getKey (validateInput acceptAllHost mustBeBrophyDef "Bro" []) "tooShort"
      = getKey (validateInput acceptAllHost
          { mustBeBrophyDef with customValidations := none } "Bro" []) "tooShort" :=
  ⟨by decide, by decide,
   customs_preserve_builtin_flag acceptAllHost mustBeBrophyDef "Bro" [] "tooShort"
     (by decide) (by decide)⟩

/-- C3: for every host, attribute record (hence every constraint value)
and form-data snapshot, validating the empty string sets every built-in
constraint-violation flag other than valueMissing to false: every
registry check except required passes outright on the empty value, so an
empty optional field is valid for type, length, range and pattern
purposes. -/
theorem empty_value_skips_non_required (h : JsHost) (attrs : BuiltInValidationAttrs)
    (fd : FormDataM) (k : String) (hk : k ∈ builtInFlagKeys) (hkr : k ≠ "valueMissing") :
    getKey (validateInput h
        { validationAttrs := some attrs, customValidations := none } "" fd) k
      = some false := by
  rw [validateInput_eq_applyWrites]
  apply getKey_applyWrites_false _ _ k (flagKeys_ne_valid k hk) (getKey_base_flag k hk)
  intro p hp hpk
  unfold inputWrites at hp
  simp only [Option.getD_some, Option.getD_none, List.map_nil, List.append_nil] at hp
  obtain ⟨a, _ha, s, _hres, hpe⟩ := mem_builtInWrites h attrs "" fd p hp
  subst hpe
  have hdk : domKeyOf a = k := hpk
  have hanr : a ≠ .required := by
    intro hcontr
    rw [hcontr] at hdk
    exact hkr hdk.symm
  show (!(builtInValidations h a).validate "" s) = false
  rw [nonRequired_validate_empty h a hanr s]
  rfl

/-- C3 witness: the theorem applied to a record with minLength 5 and the
flag key tooShort. -/
theorem empty_value_skips_non_required_witness :
    ("tooShort" ∈ builtInFlagKeys) ∧ ("tooShort" : String) ≠ "valueMissing" ∧
    getKey (validateInput acceptAllHost
        { validationAttrs := some { minLength := some (.lit 5) },
          customValidations := none } "" []) "tooShort"
      = some false :=
  ⟨by decide, by decide,
   empty_value_skips_non_required acceptAllHost { minLength := some (.lit 5) } []
     "tooShort" (by decide) (by decide)⟩

/-- C7: for every host, a field with required true and minLength 5 and
the empty value yields valueMissing true, tooShort false, and an
aggregate valid of false: the required check is exactly value
non-emptiness, and the empty value still skips the length check. -/
theorem required_checked_independently (h : JsHost) :
    getKey (validateInput h requiredMinLengthDef "" []) "valueMissing" = some true ∧
    getKey (validateInput h requiredMinLengthDef "" []) "tooShort" = some false ∧
    getValid (validateInput h requiredMinLengthDef "" []) = false :=
  ⟨rfl, rfl, rfl⟩

/-- C6: when an attribute of the record resolves to null/undefined for
the current form-data snapshot (in particular when its derivation
function returns undefined), the constraint is skipped entirely: the
validity record equals the one computed with the attribute removed, and
(when no custom validation shares the flag name) the attribute's
violation flag stays false regardless of the value. -/
theorem dynamic_constraint_skip (h : JsHost) (attrs : BuiltInValidationAttrs)
    (cust : Option (List (String × CustomValidation))) (value : String)
    (fd : FormDataM) (a : ValidationAttr)
    (hnone : resolveAttr attrs fd a = none)
    (hnames : ∀ n ∈ (cust.getD []).map Prod.fst, n ≠ domKeyOf a) :
    validateInput h { validationAttrs := some attrs, customValidations := cust } value fd
      = validateInput h
          { validationAttrs := some (eraseAttr a attrs), customValidations := cust }
          value fd ∧
    getKey (validateInput h
        { validationAttrs := some attrs, customValidations := cust } value fd)
        (domKeyOf a)
      = some false := by
  have heq : validateInput h
      { validationAttrs := some attrs, customValidations := cust } value fd
      = validateInput h
          { validationAttrs := some (eraseAttr a attrs), customValidations := cust }
          value fd := by
    rw [validateInput_eq_applyWrites, validateInput_eq_applyWrites]
    unfold inputWrites
    simp only [Option.getD_some]
    rw [builtInWrites_erase h attrs value fd a hnone]
  have hcust : ∀ p ∈ (cust.getD []).map (fun c => (c.1, !c.2 value fd)),
      p.1 ≠ domKeyOf a := by
    intro p hp
    rw [List.mem_map] at hp
    obtain ⟨c, hc, hce⟩ := hp
    rw [← hce]
    exact hnames c.1 (List.mem_map_of_mem Prod.fst hc)
  have hbw : ∀ p ∈ builtInWrites h (eraseAttr a attrs) value fd,
      p.1 ≠ domKeyOf a := by
    intro p hp hcontr
    obtain ⟨a', _, s, hres, hpe⟩ := mem_builtInWrites h (eraseAttr a attrs) value fd p hp
    subst hpe
    have ha' : a' = a := domKeyOf_inj hcontr
    rw [ha', resolveAttr_eraseAttr_self] at hres
    exact Option.noConfusion hres
  refine ⟨heq, ?_⟩
  rw [heq, validateInput_eq_applyWrites]
  unfold inputWrites
  simp only [Option.getD_some]
  rw [applyWrites_append]
  rw [getKey_applyWrites_other _ _ _ (domKeyOf_ne_valid a) hcust]
  rw [getKey_applyWrites_other _ _ _ (domKeyOf_ne_valid a) hbw]
  exact getKey_base_flag _ (domKeyOf_mem_flagKeys a)

/-- C6 witness: a min constraint derived from the absent low field of an
empty submission is skipped for the value 7. -/
theorem dynamic_constraint_skip_witness :
    (resolveAttr dynamicMinAttrs [] ValidationAttr.min = none) ∧
    (validateInput acceptAllHost
        { validationAttrs := some dynamicMinAttrs, customValidations := none } "7" []
      = validateInput acceptAllHost
          { validationAttrs := some (eraseAttr .min dynamicMinAttrs),
            customValidations := none } "7" [] ∧
     getKey (validateInput acceptAllHost
        { validationAttrs := some dynamicMinAttrs, customValidations := none } "7" [])
        (domKeyOf .min)
      = some false) :=
  ⟨rfl, dynamic_constraint_skip acceptAllHost dynamicMinAttrs none "7" [] .min rfl
    (by simp)⟩

theorem runCustomsExc_error (value : String) (fd : FormDataM) (n : String)
    (f : CustomValidationExc) (e : String) (post : List (String × CustomValidationExc))
    (hf : f value fd = Except.error e) :
    ∀ (pre : List (String × CustomValidationExc)) (v : ExtendedValidityState),
    (∀ c ∈ pre, ∃ b, c.2 value fd = Except.ok b) →
    runCustomsExc value fd (pre ++ (n, f) :: post) v = Except.error e
  | [], v, _ => by
      show runCustomsExc value fd ((n, f) :: post) v = Except.error e
      simp only [runCustomsExc, hf]
  | c :: pre, v, hpre => by
      obtain ⟨b, hb⟩ := hpre c (by simp)
      show runCustomsExc value fd (c :: (pre ++ (n, f) :: post)) v = Except.error e
      simp only [runCustomsExc, hb]
      exact runCustomsExc_error value fd n f e post hf pre _
        (fun c' hc' => hpre c' (by simp [hc']))

/-- C4 (amended): a custom validation whose execution fails (the
predicate throws or its promise rejects) aborts the whole validateInput
pass: once the earlier custom checks succeeded, the call rejects with
that error, the remaining checks never run, and no validity record is
produced.  On the client the error is only caught and logged by the
effect wrapper; on the server it rejects validateServerFormData.  This
replaces the claimed swallow-and-log per-check recovery, which the code
does not perform (see the counterexample). -/
theorem custom_error_propagates (h : JsHost) (inputDef : InputDefinitionExc)
    (value : String) (fd : FormDataM) (pre post : List (String × CustomValidationExc))
    (n : String) (f : CustomValidationExc) (e : String)
    (hc : inputDef.customValidations = some (pre ++ (n, f) :: post))
    (hpre : ∀ c ∈ pre, ∃ b, c.2 value fd = Except.ok b)
    (hf : f value fd = Except.error e) :
    validateInputExc h inputDef value fd = Except.error e := by
  unfold validateInputExc
  rw [hc]
  exact runCustomsExc_error value fd n f e post hf pre _ hpre

/-- C4 counterexample: with a throwing custom validation, validateInput
does not return a complete validity record at all: it rejects with the
error, and the sibling check named other never contributes its flag. -/
theorem custom_error_not_swallowed :
    validateInputExc acceptAllHost throwingDef "x" [] = Except.error "boom failed" ∧
    ∀ v : ExtendedValidityState,
      validateInputExc acceptAllHost throwingDef "x" [] ≠ Except.ok v := by
  refine ⟨rfl, ?_⟩
  intro v hv
  rw [show validateInputExc acceptAllHost throwingDef "x" []
      = Except.error "boom failed" from rfl] at hv
  exact Except.noConfusion hv

/-- C4 witness: the amended theorem applied to the throwing definition
with an empty prefix of succeeding checks. -/
theorem custom_error_propagates_witness :
    (throwingDef.customValidations
       = some ([] ++ ("boom", (fun _ _ => Except.error "boom failed" : CustomValidationExc))
            :: [("other", fun _ _ => Except.ok false)])) ∧
    validateInputExc acceptAllHost throwingDef "x" [] = Except.error "boom failed" :=
  ⟨rfl, custom_error_propagates acceptAllHost throwingDef "x" [] []
      [("other", fun _ _ => Except.ok false)] "boom"
      (fun _ _ => Except.error "boom failed") "boom failed" rfl
      (fun c hc => absurd hc (List.not_mem_nil c)) rfl⟩

/-- C5: the code evaluated at the failing input: a one-field form whose
email input is required, and a FormData with no entries at all.
validateServerFormData skips the absent field entirely: there is no
submittedValues entry (no recorded null), no inputs entry, no validation
run with an empty value, and the whole-form valid stays true, while the
claim requires a recorded null with valueMissing true and valid false. -/
theorem absent_required_field_skipped :
    validateServerFormData acceptAllHost [] emailFormDefinition
      = { submittedValues := [], inputs := [], valid := true } := rfl

theorem sessionStep_aborted_mono (s : SessionState) (e : SessionEvent) (g : Nat)
    (hg : g ∈ s.aborted) : g ∈ (sessionStep s e).aborted := by
  cases e with
  | startValidation =>
      cases hc : s.cur <;> simp [sessionStep, hc, hg]
  | resolve g' r =>
      by_cases hm : g' ∈ s.aborted <;> simp [sessionStep, hm, hg]

theorem sessionStep_resolve_aborted (s : SessionState) (g : Nat)
    (r : ExtendedValidityState) (hg : g ∈ s.aborted) :
    sessionStep s (.resolve g r) = s := by
  simp [sessionStep, hg]

theorem runSession_drop_aborted_resolves (g : Nat) :
    ∀ (evs : List SessionEvent) (s : SessionState), g ∈ s.aborted →
    runSession s evs = runSession s (evs.filter (fun e => !isResolveOf g e))
  | [], _, _ => rfl
  | SessionEvent.startValidation :: evs, s, hg => by
      have hfe : (SessionEvent.startValidation :: evs).filter (fun e => !isResolveOf g e)
          = SessionEvent.startValidation :: evs.filter (fun e => !isResolveOf g e) := by
        simp [isResolveOf]
      rw [hfe]
      show runSession (sessionStep s .startValidation) evs
          = runSession (sessionStep s .startValidation)
              (evs.filter (fun e => !isResolveOf g e))
      exact runSession_drop_aborted_resolves g evs _
        (sessionStep_aborted_mono s _ g hg)
  | SessionEvent.resolve g' r :: evs, s, hg => by
      by_cases hgg : g' = g
      · subst hgg
        have hfe : (SessionEvent.resolve g' r :: evs).filter (fun e => !isResolveOf g' e)
            = evs.filter (fun e => !isResolveOf g' e) := by
          simp [isResolveOf]
        rw [hfe]
        show runSession (sessionStep s (.resolve g' r)) evs
            = runSession s (evs.filter (fun e => !isResolveOf g' e))
        rw [sessionStep_resolve_aborted s g' r hg]
        exact runSession_drop_aborted_resolves g' evs s hg
      · have hfe : (SessionEvent.resolve g' r :: evs).filter (fun e => !isResolveOf g e)
            = SessionEvent.resolve g' r :: evs.filter (fun e => !isResolveOf g e) := by
          simp [isResolveOf, hgg]
        rw [hfe]
        show runSession (sessionStep s (.resolve g' r)) evs
            = runSession (sessionStep s (.resolve g' r))
                (evs.filter (fun e => !isResolveOf g e))
        exact runSession_drop_aborted_resolves g evs _
          (sessionStep_aborted_mono s _ g hg)

/-- C1: once a newer validation starts it aborts the controller of the
in-flight validation of generation g, and from then on every resolution
carrying generation g is discarded: the whole run of any later event
sequence equals the run with all of gs resolutions removed, so the old
validation can never overwrite the validity or the state flag set by the
newer one, no matter how late it resolves. -/
theorem superseded_validation_never_applies (s : SessionState) (g : Nat)
    (hcur : s.cur = some g) (evs : List SessionEvent) :
    runSession (sessionStep s .startValidation) evs
      = runSession (sessionStep s .startValidation)
          (evs.filter (fun e => !isResolveOf g e)) := by
  apply runSession_drop_aborted_resolves
  simp [sessionStep, hcur]

/-- C1 witness: the theorem applied to a session whose first validation
(generation 0) is in flight; after a second start supersedes it, a late
resolution of generation 0 has no effect on the run, including when it
arrives after the newer resolution of generation 1. -/
theorem superseded_validation_never_applies_witness :
    sessionAfterFirstStart.cur = some 0 ∧
    runSession (sessionStep sessionAfterFirstStart .startValidation)
        [SessionEvent.resolve 1 (writeCheck getBaseValidityState "valueMissing" true),
         SessionEvent.resolve 0 getBaseValidityState]
      = runSession (sessionStep sessionAfterFirstStart .startValidation)
          ([SessionEvent.resolve 1 (writeCheck getBaseValidityState "valueMissing" true),
            SessionEvent.resolve 0 getBaseValidityState].filter
            (fun e => !isResolveOf 0 e)) :=
  ⟨rfl, superseded_validation_never_applies sessionAfterFirstStart 0 rfl _⟩

theorem lookupName_addValue_other {α : Type} (n n' : String) (v : α) (hne : n' ≠ n) :
    ∀ (l : List (String × SingleOrMulti α)),
    lookupName (addValueFromSingleOrMultipleInput n v l) n' = lookupName l n'
  | [] => by
      have h1 : (n == n') = false := by simp [Ne.symm hne]
      simp [addValueFromSingleOrMultipleInput, lookupName, h1]
  | (k, w) :: rest => by
      by_cases hk : k = n
      · subst hk
        have h2 : (k == n') = false := by simp [Ne.symm hne]
        cases w <;> simp [addValueFromSingleOrMultipleInput, lookupName, h2]
      · have h1 : (k == n) = false := by simp [hk]
        by_cases hk' : k = n'
        · simp [addValueFromSingleOrMultipleInput, lookupName, h1, hk', hne]
        · have h2 : (k == n') = false := by simp [hk']
          simp [addValueFromSingleOrMultipleInput, lookupName, h1, h2,
            lookupName_addValue_other n n' v hne rest]

theorem lookupName_addValue_self {α : Type} (n : String) (v : α) :
    ∀ (l : List (String × SingleOrMulti α)),
    lookupName (addValueFromSingleOrMultipleInput n v l) n
      = some (match lookupName l n with
          | none => SingleOrMulti.single v
          | some (.single e) => SingleOrMulti.multi [e, v]
          | some (.multi xs) => SingleOrMulti.multi (xs ++ [v]))
  | [] => by simp [addValueFromSingleOrMultipleInput, lookupName]
  | (k, w) :: rest => by
      by_cases hk : k = n
      · subst hk
        cases w <;> simp [addValueFromSingleOrMultipleInput, lookupName]
      · have h1 : (k == n) = false := by simp [hk]
        simp [addValueFromSingleOrMultipleInput, lookupName, h1,
          lookupName_addValue_self n v rest]

theorem lookupName_foldl_addValue_self {α β : Type} (n : String) (g : β → α) :
    ∀ (vs : List β) (l : List (String × SingleOrMulti α)),
    lookupName (vs.foldl (fun acc v => addValueFromSingleOrMultipleInput n (g v) acc) l) n
      = collect (lookupName l n) (vs.map g)
  | [], l => by
      rw [List.foldl_nil, List.map_nil]
      cases hl : lookupName l n with
      | none => rfl
      | some w => cases w <;> rfl
  | v :: vs, l => by
      rw [List.foldl_cons, List.map_cons, lookupName_foldl_addValue_self n g vs,
        lookupName_addValue_self n (g v) l]
      cases hl : lookupName l n with
      | none => rfl
      | some w => cases w <;> rfl

theorem lookupName_foldl_addValue_other {α β : Type} (n n' : String) (g : β → α)
    (hne : n' ≠ n) : ∀ (vs : List β) (l : List (String × SingleOrMulti α)),
    lookupName (vs.foldl (fun acc v => addValueFromSingleOrMultipleInput n (g v) acc) l) n'
      = lookupName l n'
  | [], _ => rfl
  | v :: vs, l => by
      rw [List.foldl_cons, lookupName_foldl_addValue_other n n' g hne vs,
        lookupName_addValue_other n n' (g v) hne l]

theorem collect_multi {α : Type} : ∀ (rest : List α) (l : List α),
    collect (some (SingleOrMulti.multi l)) rest
      = some (SingleOrMulti.multi (l ++ rest))
  | [], l => by simp [collect]
  | v :: rest, l => by
      rw [show collect (some (SingleOrMulti.multi l)) (v :: rest)
          = collect (some (SingleOrMulti.multi (l ++ [v]))) rest from rfl]
      rw [collect_multi rest (l ++ [v])]
      simp

theorem collect_none_eq {α : Type} : ∀ (vs : List α),
    collect none vs = listToSingleOrMulti vs
  | [] => rfl
  | [_] => rfl
  | a :: b :: rest => by
      rw [show collect none (a :: b :: rest)
          = collect (some (SingleOrMulti.multi [a, b])) rest from rfl]
      rw [collect_multi rest [a, b]]
      rfl

theorem processValue_foldl_subs (h : JsHost) (fd : FormDataM) (n : String)
    (d : InputDefinition) : ∀ (vs : List String) (acc : ServerFormInfo),
    ((vs.foldl (processValue h fd n d) acc).submittedValues)
      = vs.foldl (fun l v => addValueFromSingleOrMultipleInput n v l) acc.submittedValues
  | [], _ => rfl
  | v :: vs, acc => by
      rw [List.foldl_cons, List.foldl_cons]
      exact processValue_foldl_subs h fd n d vs (processValue h fd n d acc v)

theorem processValue_foldl_inputs (h : JsHost) (fd : FormDataM) (n : String)
    (d : InputDefinition) : ∀ (vs : List String) (acc : ServerFormInfo),
    ((vs.foldl (processValue h fd n d) acc).inputs)
      = vs.foldl (fun l v =>
          addValueFromSingleOrMultipleInput n (serverInputInfo h d v fd) l) acc.inputs
  | [], _ => rfl
  | v :: vs, acc => by
      rw [List.foldl_cons, List.foldl_cons]
      exact processValue_foldl_inputs h fd n d vs (processValue h fd n d acc v)

theorem processEntry_lookup_other (h : JsHost) (fd : FormDataM)
    (entry : String × InputDefinition) (acc : ServerFormInfo) (n : String)
    (hne : entry.1 ≠ n) :
    lookupName (processEntry h fd acc entry).submittedValues n
        = lookupName acc.submittedValues n ∧
    lookupName (processEntry h fd acc entry).inputs n = lookupName acc.inputs n := by
  obtain ⟨en, ed⟩ := entry
  have hne2 : n ≠ en := Ne.symm hne
  constructor
  · rw [show processEntry h fd acc (en, ed)
        = (FormDataM.getAll fd en).foldl (processValue h fd en ed) acc from rfl]
    rw [processValue_foldl_subs]
    exact lookupName_foldl_addValue_other en n (fun v : String => v) hne2
      (FormDataM.getAll fd en) acc.submittedValues
  · rw [show processEntry h fd acc (en, ed)
        = (FormDataM.getAll fd en).foldl (processValue h fd en ed) acc from rfl]
    rw [processValue_foldl_inputs]
    exact lookupName_foldl_addValue_other en n (fun v => serverInputInfo h ed v fd) hne2
      (FormDataM.getAll fd en) acc.inputs

theorem processEntry_lookup_self (h : JsHost) (fd : FormDataM) (n : String)
    (d : InputDefinition) (acc : ServerFormInfo) :
    lookupName (processEntry h fd acc (n, d)).submittedValues n
        = collect (lookupName acc.submittedValues n) (FormDataM.getAll fd n) ∧
    lookupName (processEntry h fd acc (n, d)).inputs n
        = collect (lookupName acc.inputs n)
            ((FormDataM.getAll fd n).map (fun v => serverInputInfo h d v fd)) := by
  constructor
  · rw [show processEntry h fd acc (n, d)
        = (FormDataM.getAll fd n).foldl (processValue h fd n d) acc from rfl]
    rw [processValue_foldl_subs]
    have hgen := lookupName_foldl_addValue_self n (fun v : String => v)
      (FormDataM.getAll fd n) acc.submittedValues
    rw [List.map_id'] at hgen
    exact hgen
  · rw [show processEntry h fd acc (n, d)
        = (FormDataM.getAll fd n).foldl (processValue h fd n d) acc from rfl]
    rw [processValue_foldl_inputs]
    exact lookupName_foldl_addValue_self n (fun v => serverInputInfo h d v fd)
      (FormDataM.getAll fd n) acc.inputs

theorem entries_lookup_other (h : JsHost) (fd : FormDataM) (n : String) :
    ∀ (es : List (String × InputDefinition)) (acc : ServerFormInfo),
    (∀ e ∈ es, e.1 ≠ n) →
    lookupName (es.foldl (processEntry h fd) acc).submittedValues n
        = lookupName acc.submittedValues n ∧
    lookupName (es.foldl (processEntry h fd) acc).inputs n = lookupName acc.inputs n
  | [], _, _ => ⟨rfl, rfl⟩
  | e :: es, acc, hes => by
      rw [List.foldl_cons]
      have h1 := processEntry_lookup_other h fd e acc n (hes e (by simp))
      have h2 := entries_lookup_other h fd n es (processEntry h fd acc e)
        (fun e' he' => hes e' (by simp [he']))
      exact ⟨h2.1.trans h1.1, h2.2.trans h1.2⟩

theorem validateServerFormData_lookup (h : JsHost) (fd : FormDataM)
    (pre post : List (String × InputDefinition)) (d : InputDefinition) (n : String)
    (hpre : ∀ e ∈ pre, e.1 ≠ n) (hpost : ∀ e ∈ post, e.1 ≠ n) :
    lookupName (validateServerFormData h fd (pre ++ (n, d) :: post)).submittedValues n
        = collect none (FormDataM.getAll fd n) ∧
    lookupName (validateServerFormData h fd (pre ++ (n, d) :: post)).inputs n
        = collect none ((FormDataM.getAll fd n).map (fun v => serverInputInfo h d v fd)) := by
  unfold validateServerFormData
  rw [List.foldl_append, List.foldl_cons]
  have hpre2 := entries_lookup_other h fd n pre
    { submittedValues := [], inputs := [], valid := true } hpre
  have hself := processEntry_lookup_self h fd n d
    (pre.foldl (processEntry h fd) { submittedValues := [], inputs := [], valid := true })
  have hpost2 := entries_lookup_other h fd n post
    (processEntry h fd
      (pre.foldl (processEntry h fd) { submittedValues := [], inputs := [], valid := true })
      (n, d)) hpost
  refine ⟨?_, ?_⟩
  · rw [hpost2.1, hself.1, hpre2.1]
    rfl
  · rw [hpost2.2, hself.2, hpre2.2]
    rfl

/-- C8: when the FormData holds exactly three string values for a
declared input name (and no other declared input shares the name),
validateServerFormData stores under that name an ordered three-element
array matching submission order in submittedValues, and a parallel
three-element array of InputInfo records in inputs, each with touched
true, dirty true and state done. -/
theorem server_multi_value_round_trip (h : JsHost) (fd : FormDataM)
    (pre post : List (String × InputDefinition)) (d : InputDefinition)
    (n a b c : String)
    (hpre : ∀ e ∈ pre, e.1 ≠ n) (hpost : ∀ e ∈ post, e.1 ≠ n)
    (hvals : FormDataM.getAll fd n = [a, b, c]) :
    lookupName (validateServerFormData h fd (pre ++ (n, d) :: post)).submittedValues n
      = some (SingleOrMulti.multi [a, b, c]) ∧
    lookupName (validateServerFormData h fd (pre ++ (n, d) :: post)).inputs n
      = some (SingleOrMulti.multi
          [serverInputInfo h d a fd, serverInputInfo h d b fd, serverInputInfo h d c fd]) ∧
    ∀ i ∈ [serverInputInfo h d a fd, serverInputInfo h d b fd, serverInputInfo h d c fd],
      i.touched = true ∧ i.dirty = true ∧ i.state = InputState.done := by
  obtain ⟨h1, h2⟩ := validateServerFormData_lookup h fd pre post d n hpre hpost
  rw [hvals] at h1 h2
  refine ⟨by rw [h1]; rfl, by rw [h2]; rfl, ?_⟩
  intro i hi
  fin_cases hi <;> exact ⟨rfl, rfl, rfl⟩

/-- C8 witness: the theorem applied to a one-field form and a FormData
holding three hobby values. -/
theorem server_multi_value_round_trip_witness :
    (FormDataM.getAll
        [("hobby", "reading"), ("hobby", "code"), ("hobby", "chess")] "hobby"
      = ["reading", "code", "chess"]) ∧
    lookupName (validateServerFormData acceptAllHost
        [("hobby", "reading"), ("hobby", "code"), ("hobby", "chess")]
        ([] ++ ("hobby", ({} : InputDefinition)) :: [])).submittedValues "hobby"
      = some (SingleOrMulti.multi ["reading", "code", "chess"]) :=
  ⟨rfl,
   (server_multi_value_round_trip acceptAllHost
      [("hobby", "reading"), ("hobby", "code"), ("hobby", "chess")] [] [] {}
      "hobby" "reading" "code" "chess" (by simp) (by simp) rfl).1⟩

/-- C10: whether a declared input's entry in submittedValues and in the
inputs map is a bare scalar or an array is determined solely by the
count of string values submitted under its name: no entry for zero,
a bare scalar (not a one-element array) for exactly one, and an array
in submission order for two or more.  The input definition d is
arbitrary and the source InputDefinition has no multi-valued
declaration, so a multi-select submitted with a single selection round
trips as a scalar. -/
theorem server_value_shape_by_count (h : JsHost) (fd : FormDataM)
    (pre post : List (String × InputDefinition)) (d : InputDefinition) (n : String)
    (hpre : ∀ e ∈ pre, e.1 ≠ n) (hpost : ∀ e ∈ post, e.1 ≠ n) :
    lookupName (validateServerFormData h fd (pre ++ (n, d) :: post)).submittedValues n
      = listToSingleOrMulti (FormDataM.getAll fd n) ∧
    lookupName (validateServerFormData h fd (pre ++ (n, d) :: post)).inputs n
      = listToSingleOrMulti
          ((FormDataM.getAll fd n).map (fun v => serverInputInfo h d v fd)) := by
  obtain ⟨h1, h2⟩ := validateServerFormData_lookup h fd pre post d n hpre hpost
  exact ⟨by rw [h1, collect_none_eq], by rw [h2, collect_none_eq]⟩

/-- C10 witness: a multi-select style field submitted with a single
selection round trips as a bare scalar. -/
theorem server_value_shape_by_count_witness :
    lookupName (validateServerFormData acceptAllHost [("color", "red")]
        ([] ++ ("color", ({} : InputDefinition)) :: [])).submittedValues "color"
      = some (SingleOrMulti.single "red") := by
  have hshape := (server_value_shape_by_count acceptAllHost [("color", "red")] [] []
    {} "color" (by simp) (by simp)).1
  rw [hshape]
  rfl

end RVS
